import Mathlib

/-!
Shallow embedding of `easunpy/modbusclient.py`.

Conventions of the embedding:
* a Python byte is a `Nat` below 256; a byte string is a `List Nat`;
* a Python text string is a `List Char`;
* Python `int` is `Int`; on `Int`, Lean's `/` and `%` are Euclidean division
  and remainder, which for the positive divisors used here agree with
  Python's floor division (`>>`) and nonnegative remainder (`& mask`, `%`);
* code that can raise returns `Option` or `Except`.
-/

/-- One lowercase hexadecimal digit, as produced by Python's `bytes.hex()`. -/
def hexDigit (n : Nat) : Char :=
  if n < 10 then Char.ofNat ('0'.toNat + n) else Char.ofNat ('a'.toNat + n - 10)

/-- Hex encoding of one byte: two lowercase hex characters. -/
def byteToHex (b : Nat) : List Char := [hexDigit (b / 16), hexDigit (b % 16)]

/-- Lowercase hex encoding of a byte string: Python `bytes.hex()`. -/
def bytesToHex : List Nat → List Char
  | [] => []
  | b :: bs => byteToHex b ++ bytesToHex bs

/-- Numeric value of one hex-digit character, `none` on any other character. -/
def hexVal (c : Char) : Option Nat :=
  if '0' ≤ c ∧ c ≤ '9' then some (c.toNat - '0'.toNat)
  else if 'a' ≤ c ∧ c ≤ 'f' then some (c.toNat - 'a'.toNat + 10)
  else if 'A' ≤ c ∧ c ≤ 'F' then some (c.toNat - 'A'.toNat + 10)
  else none

/-- Python `int(s, 16)`: `none` models the `ValueError` raised on an empty
string or on a non-digit character.  (Python additionally tolerates signs,
surrounding whitespace and underscores; no string considered in this
development contains those, so the model covers strings of hex digits and
the strings on which parsing fails.) -/
def parseHexNat (s : List Char) : Option Nat :=
  if s.isEmpty then none
  else s.foldl (fun acc c =>
    match acc, hexVal c with
    | some a, some v => some (16 * a + v)
    | _, _ => none) (some 0)

/-- Python slice `s[a:b]` on a string, indices clamped to the length. -/
def pySlice (s : List Char) (a b : Nat) : List Char := (s.take b).drop a

/-- Python `x & 0xFF` on an arbitrary `int`: the result is in `[0, 256)`. -/
def pyByte (x : Int) : Nat := (x % 256).toNat

/-- Python `(x >> 8) & 0xFF` on an arbitrary `int`: the arithmetic shift is
floor division by 256, then the low byte is kept. -/
def pyHiByte (x : Int) : Nat := ((x / 256) % 256).toNat

/-- Modelled from the spec: `crc16_modbus` is imported from `easunpy/crc.py`,
which is not among the sources; the spec fixes its contract as the standard
Modbus-RTU CRC-16 with polynomial `0xA001` and initial value `0xFFFF`.
This is one shift round of that CRC. -/
def crcRound (crc : Nat) : Nat :=
  if crc % 2 = 1 then (crc / 2) ^^^ 0xA001 else crc / 2

/-- Modelled from the spec: absorbing one input byte into the CRC register is
an XOR with the byte followed by eight shift rounds. -/
def crcByteStep (crc : Nat) (b : Nat) : Nat :=
  crcRound (crcRound (crcRound (crcRound
    (crcRound (crcRound (crcRound (crcRound (crc ^^^ (b % 256)))))))))

/-- Modelled from the spec: the Modbus-RTU CRC-16 of a byte string
(polynomial `0xA001`, initial value `0xFFFF`). -/
def crc16_modbus (data : List Nat) : Nat :=
  data.foldl crcByteStep 0xFFFF

/-- The 6-byte Modbus RTU message body built by `create_request`
(`modbusclient.py` lines 110-117): unit id, function code, and the
big-endian register address and register count. -/
def message_frame (unit_id function_code register_address register_offset : Int) :
    List Nat :=
  [pyByte unit_id, pyByte function_code,
   pyHiByte register_address, pyByte register_address,
   pyHiByte register_offset, pyByte register_offset]

/-- `create_request` (`modbusclient.py` lines 103-138): builds the 16-byte
frame — transaction id, protocol id, the fixed bytes `0x00 0x0A 0xFF 0x04`,
the 6-byte message body, and the CRC of the body appended low byte first —
and returns its lowercase hex encoding. -/
def create_request (transaction_id protocol_id unit_id function_code
    register_address register_offset : Int) : List Char :=
  let mf := message_frame unit_id function_code register_address register_offset
  let crc := crc16_modbus mf
  bytesToHex
    ([pyHiByte transaction_id, pyByte transaction_id,
      pyHiByte protocol_id, pyByte protocol_id,
      0x00, 0x0A, 0xFF, 0x04]
     ++ mf ++ [crc % 256, crc / 256 % 256])

/-- The sixteen characters a lowercase hex dump may contain. -/
def isLowerHexDigit (c : Char) : Prop :=
  ('0' ≤ c ∧ c ≤ '9') ∨ ('a' ≤ c ∧ c ≤ 'f')

instance (c : Char) : Decidable (isLowerHexDigit c) := by
  unfold isLowerHexDigit; infer_instance

-- Basic facts about the hex encoding.

theorem bytesToHex_length (bs : List Nat) : (bytesToHex bs).length = 2 * bs.length := by
  induction bs with
  | nil => rfl
  | cons b bs ih => simp [bytesToHex, byteToHex, ih]; omega

theorem hexDigit_lower {n : Nat} (h : n < 16) : isLowerHexDigit (hexDigit n) := by
  revert n h
  decide

theorem byteToHex_lower {b : Nat} (h : b < 256) :
    ∀ c ∈ byteToHex b, isLowerHexDigit c := by
  intro c hc
  simp only [byteToHex, List.mem_cons, List.not_mem_nil, or_false] at hc
  rcases hc with hc | hc <;> rw [hc]
  · exact hexDigit_lower (by omega)
  · exact hexDigit_lower (by omega)

theorem bytesToHex_lower {bs : List Nat} (h : ∀ b ∈ bs, b < 256) :
    ∀ c ∈ bytesToHex bs, isLowerHexDigit c := by
  induction bs with
  | nil => intro c hc; cases hc
  | cons b bs ih =>
    intro c hc
    rw [bytesToHex, List.mem_append] at hc
    rcases hc with hc | hc
    · exact byteToHex_lower (h b (List.mem_cons_self b bs)) c hc
    · exact ih (fun x hx => h x (List.mem_cons_of_mem b hx)) c hc

theorem pyByte_lt (x : Int) : pyByte x < 256 := by
  unfold pyByte; omega

theorem pyHiByte_lt (x : Int) : pyHiByte x < 256 := by
  unfold pyHiByte; omega

-- The CRC register always fits sixteen bits.

theorem crcRound_lt {crc : Nat} (h : crc < 65536) : crcRound crc < 65536 := by
  unfold crcRound
  split
  · have h1 : crc / 2 < 2 ^ 16 := by omega
    have h2 : 0xA001 < 2 ^ 16 := by norm_num
    have := Nat.xor_lt_two_pow h1 h2
    omega
  · omega

theorem crcByteStep_lt {crc : Nat} (h : crc < 65536) (b : Nat) :
    crcByteStep crc b < 65536 := by
  unfold crcByteStep
  have h0 : crc ^^^ (b % 256) < 65536 := by
    have h1 : crc < 2 ^ 16 := by omega
    have h2 : b % 256 < 2 ^ 16 := by
      have : b % 256 < 256 := Nat.mod_lt _ (by norm_num)
      omega
    have := Nat.xor_lt_two_pow h1 h2
    omega
  exact crcRound_lt (crcRound_lt (crcRound_lt (crcRound_lt
    (crcRound_lt (crcRound_lt (crcRound_lt (crcRound_lt h0)))))))

theorem crc16_modbus_lt (data : List Nat) : crc16_modbus data < 65536 := by
  unfold crc16_modbus
  have key : ∀ (l : List Nat) (init : Nat), init < 65536 →
      l.foldl crcByteStep init < 65536 := by
    intro l
    induction l with
    | nil => intro init h; simpa using h
    | cons b bs ih =>
      intro init h
      simpa using ih (crcByteStep init b) (crcByteStep_lt h b)
  exact key data 0xFFFF (by norm_num)

/-- C1. `create_request` returns exactly 32 lowercase hex characters encoding
the 16-byte frame `[tidHi, tidLo, protoHi, protoLo, 0x00, 0x0A, 0xFF, 0x04]`
followed by the 6-byte message body `[unitId, functionCode, addrHi, addrLo,
countHi, countLo]` followed by the CRC-16 of exactly that body written low
byte first; the bytes at positions 4-7 are literal constants independent of
every input. -/
theorem create_request_frame_layout (t p u f a c : Int) :
    create_request t p u f a c =
      bytesToHex
        ([pyHiByte t, pyByte t, pyHiByte p, pyByte p, 0x00, 0x0A, 0xFF, 0x04]
         ++ message_frame u f a c
         ++ [crc16_modbus (message_frame u f a c) % 256,
             crc16_modbus (message_frame u f a c) / 256]) ∧
    (create_request t p u f a c).length = 32 ∧
    ∀ ch ∈ create_request t p u f a c, isLowerHexDigit ch := by
  have hcrc := crc16_modbus_lt (message_frame u f a c)
  have hdiv : crc16_modbus (message_frame u f a c) / 256 % 256 =
      crc16_modbus (message_frame u f a c) / 256 := Nat.mod_eq_of_lt (by omega)
  have heq : create_request t p u f a c =
      bytesToHex
        ([pyHiByte t, pyByte t, pyHiByte p, pyByte p, 0x00, 0x0A, 0xFF, 0x04]
         ++ message_frame u f a c
         ++ [crc16_modbus (message_frame u f a c) % 256,
             crc16_modbus (message_frame u f a c) / 256]) := by
    simp only [create_request]
    rw [hdiv]
  refine ⟨heq, ?_, ?_⟩
  · rw [heq, bytesToHex_length]
    simp [message_frame]
  · rw [heq]
    apply bytesToHex_lower
    intro b hb
    simp only [message_frame, List.mem_append, List.mem_cons,
      List.not_mem_nil, or_false, or_assoc] at hb
    simp only [message_frame] at hcrc
    rcases hb with h | h | h | h | h | h | h | h | h | h | h | h | h | h | h | h <;>
      rw [h] <;>
      first
        | exact pyByte_lt _
        | exact pyHiByte_lt _
        | omega

/-- C1 witness: the layout theorem evaluated at a concrete input. -/
theorem create_request_frame_layout_witness :
    (create_request 1 1 1 4 0 1).length = 32 :=
  (create_request_frame_layout 1 1 1 4 0 1).2.1

-- The byte extractors only depend on the argument modulo its field width.

theorem pyByte_emod_256 (x : Int) : pyByte (x % 256) = pyByte x := by
  unfold pyByte; omega

theorem pyByte_emod_65536 (x : Int) : pyByte (x % 65536) = pyByte x := by
  unfold pyByte; omega

theorem pyHiByte_emod_65536 (x : Int) : pyHiByte (x % 65536) = pyHiByte x := by
  unfold pyHiByte; omega

/-- C7. `create_request` never fails and silently truncates every input to
its field width: masking each argument by its bit width first produces the
same frame. -/
theorem create_request_truncates (t p u f a c : Int) :
    create_request (t % 65536) (p % 65536) (u % 256) (f % 256)
      (a % 65536) (c % 65536) = create_request t p u f a c := by
  have hmf : message_frame (u % 256) (f % 256) (a % 65536) (c % 65536) =
      message_frame u f a c := by
    unfold message_frame
    rw [pyByte_emod_256, pyByte_emod_256, pyByte_emod_65536, pyByte_emod_65536,
      pyHiByte_emod_65536, pyHiByte_emod_65536]
  simp only [create_request, hmf, pyByte_emod_65536, pyHiByte_emod_65536]

/-- C7 witness: truncation at concrete out-of-range inputs. -/
theorem create_request_truncates_witness :
    create_request (70000 % 65536) ((-1) % 65536) (300 % 256) (4 % 256)
      (65636 % 65536) (70003 % 65536) = create_request 70000 (-1) 300 4 65636 70003 :=
  create_request_truncates 70000 (-1) 300 4 65636 70003

/-- A value produced by `decode_modbus_response`: an `int` from the `"Int"` or
`"UnsignedInt"` branches, or the raw four bytes the `"Float"` branch would
hand to the IEEE-754 unpack (kept at bit level; the branch in fact never
produces a value, see below). -/
inductive DVal where
  | int (v : Int)
  | float (bits : List Nat)
  deriving DecidableEq, Repr

/-- The ways `decode_modbus_response` can raise: `parseError` models the
`ValueError` of `int(_, 16)` and `bytes.fromhex`, `unpackError` the
`struct.error` of a wrong-sized `struct.unpack('f', _)`, and
`unsupportedFormat` the explicit `ValueError` raised for an unknown format. -/
inductive DecodeError where
  | parseError
  | unpackError
  | unsupportedFormat (fmt : String)
  deriving DecidableEq, Repr

/-- Python `bytes.fromhex`: an even run of hex digits becomes bytes, anything
else raises.  (Python also permits spaces between byte pairs; none of the
strings considered here contain spaces.) -/
def fromHexBytes : List Char → Option (List Nat)
  | [] => some []
  | c1 :: c2 :: rest =>
    match hexVal c1, hexVal c2, fromHexBytes rest with
    | some a, some b, some bs => some ((16 * a + b) :: bs)
    | _, _, _ => none
  | [_] => none

/-- The per-register loop of `decode_modbus_response` (`modbusclient.py`
lines 162-177): iteration `i` slices hex characters `[i*4, (i+1)*4)` of the
data and converts them according to `data_format`; an unknown format raises
at the first iteration. -/
def decodeWords (data_bytes : List Char) (data_format : String) :
    Nat → Nat → Except DecodeError (List DVal)
  | 0, _ => .ok []
  | Nat.succ n, i =>
    if data_format = "Int" then
      match parseHexNat (pySlice data_bytes (i * 4) ((i + 1) * 4)) with
      | none => .error .parseError
      | some v =>
        let w : Int := if 32768 ≤ v then (v : Int) - 65536 else (v : Int)
        match decodeWords data_bytes data_format n (i + 1) with
        | .ok rest => .ok (.int w :: rest)
        | .error e => .error e
    else if data_format = "UnsignedInt" then
      match parseHexNat (pySlice data_bytes (i * 4) ((i + 1) * 4)) with
      | none => .error .parseError
      | some v =>
        match decodeWords data_bytes data_format n (i + 1) with
        | .ok rest => .ok (.int (v : Int) :: rest)
        | .error e => .error e
    else if data_format = "Float" then
      match fromHexBytes (pySlice data_bytes (i * 4) ((i + 1) * 4)) with
      | none => .error .parseError
      | some bs =>
        if bs.length = 4 then
          match decodeWords data_bytes data_format n (i + 1) with
          | .ok rest => .ok (.float bs :: rest)
          | .error e => .error e
        else .error .unpackError
    else .error (.unsupportedFormat data_format)

/-- `decode_modbus_response` (`modbusclient.py` lines 140-179): reads the
big-endian length field from hex characters `[8:12)`, slices the RTU payload
as the next `length * 2` hex characters, reads the declared data-byte count
from payload characters `[8:10)`, slices the data accordingly, and runs the
per-register loop.  (The extra field, device address and function code are
sliced by the source but never used, and slicing cannot raise.) -/
def decode_modbus_response (response : List Char) (register_count : Nat := 1)
    (data_format : String := "Int") : Except DecodeError (List DVal) :=
  match parseHexNat (pySlice response 8 12) with
  | none => .error .parseError
  | some length =>
    let rtu_payload := pySlice response 12 (12 + length * 2)
    match parseHexNat (pySlice rtu_payload 8 10) with
    | none => .error .parseError
    | some num_data_bytes =>
      let data_bytes := pySlice rtu_payload 10 (10 + num_data_bytes * 2)
      decodeWords data_bytes data_format register_count 0

/-- `get_registers_from_request` (`modbusclient.py` lines 181-195): drops the
12-character TCP header, parses the register address from payload characters
`[8:12)` and the register count from `[12:16)`, and lists the consecutive
addresses. -/
def get_registers_from_request (request : List Char) :
    Except DecodeError (List Nat) :=
  let rtu_payload := request.drop 12
  match parseHexNat (pySlice rtu_payload 8 12) with
  | none => .error .parseError
  | some register_address =>
    match parseHexNat (pySlice rtu_payload 12 16) with
    | none => .error .parseError
    | some register_count =>
      .ok ((List.range register_count).map (fun i => register_address + i))

/-- The big-endian two-byte encoding of a 16-bit word. -/
def be16 (v : Nat) : List Nat := [v / 256 % 256, v % 256]

/-- The big-endian byte run of a list of 16-bit words. -/
def wordsToHexBytes : List Nat → List Nat
  | [] => []
  | v :: vs => be16 v ++ wordsToHexBytes vs

/-- The synthetic well-formed response frame the spec describes: an arbitrary
4-byte transaction/protocol echo, the big-endian payload byte count, then the
RTU payload — an extra byte, a device address, a function-code echo, a pad
byte, the declared data-byte count `2 * N`, and the `N` data words big-endian
(so the words start at payload hex offset 10). -/
def mkResponse (vals : List Nat) : List Char :=
  let n := vals.length
  let payloadLen := 5 + 2 * n
  bytesToHex
    ([0, 0, 0, 0, payloadLen / 256 % 256, payloadLen % 256, 1, 255, 4, 0, 2 * n]
     ++ wordsToHexBytes vals)

-- Parsing a hex dump recovers the bytes.

theorem hexVal_hexDigit {n : Nat} (h : n < 16) : hexVal (hexDigit n) = some n := by
  revert n h
  decide

theorem parseHexNat_byteToHex {b : Nat} (h : b < 256) :
    parseHexNat (byteToHex b) = some b := by
  have h1 : b / 16 < 16 := by omega
  have h2 : b % 16 < 16 := by omega
  simp [parseHexNat, byteToHex, hexVal_hexDigit h1, hexVal_hexDigit h2]
  omega

theorem parseHexNat_two_bytes {b c : Nat} (hb : b < 256) (hc : c < 256) :
    parseHexNat (byteToHex b ++ byteToHex c) = some (256 * b + c) := by
  have h1 : b / 16 < 16 := by omega
  have h2 : b % 16 < 16 := by omega
  have h3 : c / 16 < 16 := by omega
  have h4 : c % 16 < 16 := by omega
  simp [parseHexNat, byteToHex, hexVal_hexDigit h1, hexVal_hexDigit h2,
    hexVal_hexDigit h3, hexVal_hexDigit h4]
  omega

-- Dropping and taking whole bytes of a hex dump.

theorem bytesToHex_append (l1 l2 : List Nat) :
    bytesToHex (l1 ++ l2) = bytesToHex l1 ++ bytesToHex l2 := by
  induction l1 with
  | nil => simp [bytesToHex]
  | cons b bs ih => simp [bytesToHex, ih]

theorem bytesToHex_drop (bs : List Nat) (k : Nat) :
    (bytesToHex bs).drop (2 * k) = bytesToHex (bs.drop k) := by
  induction bs generalizing k with
  | nil => simp [bytesToHex]
  | cons b bs ih =>
    cases k with
    | zero => simp
    | succ k =>
      have h2 : 2 * (k + 1) = 2 * k + 1 + 1 := by omega
      rw [h2]
      simp only [bytesToHex, byteToHex, List.cons_append, List.nil_append,
        List.drop_succ_cons]
      exact ih k

theorem bytesToHex_take (bs : List Nat) (k : Nat) :
    (bytesToHex bs).take (2 * k) = bytesToHex (bs.take k) := by
  induction bs generalizing k with
  | nil => simp [bytesToHex]
  | cons b bs ih =>
    cases k with
    | zero => simp [bytesToHex]
    | succ k =>
      have h2 : 2 * (k + 1) = 2 * k + 1 + 1 := by omega
      rw [h2]
      simp only [bytesToHex, byteToHex, List.cons_append, List.nil_append,
        List.take_succ_cons]
      rw [ih k]

theorem pySlice_bytesToHex (bs : List Nat) (a b : Nat) :
    pySlice (bytesToHex bs) (2 * a) (2 * b) = bytesToHex ((bs.take b).drop a) := by
  unfold pySlice
  rw [bytesToHex_take, bytesToHex_drop]

-- The word dump: two bytes per 16-bit word.

theorem wordsToHexBytes_append (l1 l2 : List Nat) :
    wordsToHexBytes (l1 ++ l2) = wordsToHexBytes l1 ++ wordsToHexBytes l2 := by
  induction l1 with
  | nil => simp [wordsToHexBytes]
  | cons v vs ih => simp [wordsToHexBytes, ih]

theorem wordsToHexBytes_length (vs : List Nat) :
    (wordsToHexBytes vs).length = 2 * vs.length := by
  induction vs with
  | nil => rfl
  | cons v vs ih => simp [wordsToHexBytes, be16, ih]; omega

theorem wordsToHexBytes_lt (vs : List Nat) :
    ∀ b ∈ wordsToHexBytes vs, b < 256 := by
  induction vs with
  | nil => intro b hb; cases hb
  | cons v vs ih =>
    intro b hb
    rw [wordsToHexBytes, List.mem_append] at hb
    rcases hb with hb | hb
    · simp only [be16, List.mem_cons, List.not_mem_nil, or_false] at hb
      rcases hb with hb | hb <;> omega
    · exact ih b hb

/-- The hex characters sliced for word `i` of the data run are exactly the
hex dump of the two big-endian bytes of word `i`. -/
theorem pySlice_word (pre vs : List Nat) (v : Nat) (hv : v < 65536) :
    parseHexNat (pySlice (bytesToHex (wordsToHexBytes (pre ++ v :: vs)))
      (pre.length * 4) (pre.length * 4 + 4)) = some v := by
  have ha : pre.length * 4 = 2 * (2 * pre.length) := by omega
  have hb : pre.length * 4 + 4 = 2 * (2 * pre.length + 2) := by omega
  rw [hb, ha, pySlice_bytesToHex]
  have hsplit : wordsToHexBytes (pre ++ v :: vs) =
      wordsToHexBytes pre ++ (be16 v ++ wordsToHexBytes vs) := by
    rw [wordsToHexBytes_append]; rfl
  rw [hsplit]
  have hlen : (wordsToHexBytes pre).length = 2 * pre.length :=
    wordsToHexBytes_length pre
  rw [List.drop_take]
  have hdrop : (wordsToHexBytes pre ++ (be16 v ++ wordsToHexBytes vs)).drop
      (2 * pre.length) = be16 v ++ wordsToHexBytes vs := by
    rw [← hlen, List.drop_left]
  rw [hdrop]
  have harith : 2 * pre.length + 2 - 2 * pre.length = 2 := by omega
  rw [harith]
  have htake : (be16 v ++ wordsToHexBytes vs).take 2 = be16 v := by
    have : (be16 v).length = 2 := by simp [be16]
    rw [← this, List.take_left]
  rw [htake]
  have hbe : bytesToHex (be16 v) = byteToHex (v / 256 % 256) ++ byteToHex (v % 256) := by
    simp [be16, bytesToHex]
  rw [hbe, parseHexNat_two_bytes (by omega) (by omega)]
  congr 1
  omega

/-- The decode loop on `"UnsignedInt"` recovers every word of a big-endian
word dump, whatever prefix of words was already consumed. -/
theorem decodeWords_unsigned (pre vals : List Nat)
    (hv : ∀ v ∈ vals, v < 65536) :
    decodeWords (bytesToHex (wordsToHexBytes (pre ++ vals))) "UnsignedInt"
      vals.length pre.length = .ok (vals.map fun v : Nat => DVal.int (v : Int)) := by
  induction vals generalizing pre with
  | nil => simp [decodeWords]
  | cons v vs ih =>
    have hv0 : v < 65536 := hv v (List.mem_cons_self v vs)
    have hrest : ∀ x ∈ vs, x < 65536 := fun x hx => hv x (List.mem_cons_of_mem v hx)
    have hslice := pySlice_word pre vs v hv0
    have hidx : (pre.length + 1) * 4 = pre.length * 4 + 4 := by ring
    have ihv := ih (pre ++ [v]) hrest
    rw [List.append_assoc, List.singleton_append] at ihv
    simp only [List.length_append, List.length_cons, List.length_nil] at ihv
    simp only [List.length_cons, decodeWords, String.reduceEq, if_false, if_pos,
      hidx, hslice, ihv, List.map_cons]

/-- The decode loop on `"Int"` recovers every word of a big-endian word dump
folded to a signed 16-bit value. -/
theorem decodeWords_int (pre vals : List Nat)
    (hv : ∀ v ∈ vals, v < 65536) :
    decodeWords (bytesToHex (wordsToHexBytes (pre ++ vals))) "Int"
      vals.length pre.length =
      .ok (vals.map fun v : Nat =>
        DVal.int (if 32768 ≤ v then (v : Int) - 65536 else (v : Int))) := by
  induction vals generalizing pre with
  | nil => simp [decodeWords]
  | cons v vs ih =>
    have hv0 : v < 65536 := hv v (List.mem_cons_self v vs)
    have hrest : ∀ x ∈ vs, x < 65536 := fun x hx => hv x (List.mem_cons_of_mem v hx)
    have hslice := pySlice_word pre vs v hv0
    have hidx : (pre.length + 1) * 4 = pre.length * 4 + 4 := by ring
    have ihv := ih (pre ++ [v]) hrest
    rw [List.append_assoc, List.singleton_append] at ihv
    simp only [List.length_append, List.length_cons, List.length_nil] at ihv
    simp only [List.length_cons, decodeWords, if_pos, hidx, hslice, ihv,
      List.map_cons]

/-- Decoding the synthetic frame reads back the header length field and the
declared data-byte count and hands the word loop exactly the hex dump of the
data words. -/
theorem decode_mkResponse (vals : List Nat) (fmt : String)
    (hn : vals.length ≤ 127) :
    decode_modbus_response (mkResponse vals) vals.length fmt =
      decodeWords (bytesToHex (wordsToHexBytes vals)) fmt vals.length 0 := by
  have hL : 5 + 2 * vals.length < 65536 := by omega
  have hx : (5 + 2 * vals.length) / 256 % 256 < 256 := by omega
  have hy : (5 + 2 * vals.length) % 256 < 256 := by omega
  have hlenfield :
      parseHexNat (pySlice (mkResponse vals) 8 12) = some (5 + 2 * vals.length) := by
    rw [show (8 : Nat) = 2 * 4 from rfl, show (12 : Nat) = 2 * 6 from rfl]
    rw [show mkResponse vals =
      bytesToHex ([0, 0, 0, 0, (5 + 2 * vals.length) / 256 % 256,
        (5 + 2 * vals.length) % 256, 1, 255, 4, 0, 2 * vals.length]
        ++ wordsToHexBytes vals) from rfl]
    rw [pySlice_bytesToHex]
    rw [show (([0, 0, 0, 0, (5 + 2 * vals.length) / 256 % 256,
        (5 + 2 * vals.length) % 256, 1, 255, 4, 0, 2 * vals.length]
        ++ wordsToHexBytes vals).take 6).drop 4 =
      [(5 + 2 * vals.length) / 256 % 256, (5 + 2 * vals.length) % 256] from rfl]
    rw [show bytesToHex [(5 + 2 * vals.length) / 256 % 256,
        (5 + 2 * vals.length) % 256] =
      byteToHex ((5 + 2 * vals.length) / 256 % 256) ++
        byteToHex ((5 + 2 * vals.length) % 256) by simp [bytesToHex]]
    rw [parseHexNat_two_bytes hx hy]
    congr 1
    omega
  have hbytes : ([0, 0, 0, 0, (5 + 2 * vals.length) / 256 % 256,
      (5 + 2 * vals.length) % 256, 1, 255, 4, 0, 2 * vals.length]
      ++ wordsToHexBytes vals).length = 11 + 2 * vals.length := by
    simp [wordsToHexBytes_length]
    omega
  have hpayload : pySlice (mkResponse vals) 12 (12 + (5 + 2 * vals.length) * 2) =
      bytesToHex ([1, 255, 4, 0, 2 * vals.length] ++ wordsToHexBytes vals) := by
    rw [show (12 : Nat) = 2 * 6 from rfl,
      show 2 * 6 + (5 + 2 * vals.length) * 2 = 2 * (11 + vals.length * 2) by ring]
    rw [show mkResponse vals =
      bytesToHex ([0, 0, 0, 0, (5 + 2 * vals.length) / 256 % 256,
        (5 + 2 * vals.length) % 256, 1, 255, 4, 0, 2 * vals.length]
        ++ wordsToHexBytes vals) from rfl]
    rw [pySlice_bytesToHex]
    rw [List.take_of_length_le (by rw [hbytes]; omega)]
    rfl
  have hcount : parseHexNat (pySlice
      (bytesToHex ([1, 255, 4, 0, 2 * vals.length] ++ wordsToHexBytes vals)) 8 10) =
      some (2 * vals.length) := by
    rw [show (8 : Nat) = 2 * 4 from rfl, show (10 : Nat) = 2 * 5 from rfl]
    rw [pySlice_bytesToHex]
    rw [show ((([1, 255, 4, 0, 2 * vals.length] ++ wordsToHexBytes vals).take 5).drop 4) =
      [2 * vals.length] from rfl]
    rw [show bytesToHex [2 * vals.length] = byteToHex (2 * vals.length) by
      simp [bytesToHex]]
    exact parseHexNat_byteToHex (by omega)
  have hdata : pySlice
      (bytesToHex ([1, 255, 4, 0, 2 * vals.length] ++ wordsToHexBytes vals))
      10 (10 + 2 * vals.length * 2) =
      bytesToHex (wordsToHexBytes vals) := by
    rw [show (10 : Nat) = 2 * 5 from rfl,
      show 2 * 5 + 2 * vals.length * 2 = 2 * (5 + vals.length * 2) by ring]
    rw [pySlice_bytesToHex]
    rw [List.take_of_length_le (by simp [wordsToHexBytes_length]; omega)]
    rfl
  simp only [decode_modbus_response, hlenfield, hpayload, hcount, hdata]

/-- C3. `decode_modbus_response` with format `"UnsignedInt"` is a left
inverse of building a well-formed synthetic response from `N` known 16-bit
values (the declared data-byte count `2 * N` must itself fit its one-byte
field, i.e. `N ≤ 127`): decoding recovers exactly the values in order. -/
theorem decode_unsigned_left_inverse (vals : List Nat)
    (hv : ∀ v ∈ vals, v < 65536) (hn : vals.length ≤ 127) :
    decode_modbus_response (mkResponse vals) vals.length "UnsignedInt" =
      .ok (vals.map fun v : Nat => DVal.int (v : Int)) := by
  rw [decode_mkResponse vals "UnsignedInt" hn]
  exact decodeWords_unsigned [] vals hv

/-- C3 witness: the left-inverse property at a concrete value list. -/
theorem decode_unsigned_left_inverse_witness :
    decode_modbus_response (mkResponse [1, 65535, 300]) 3 "UnsignedInt" =
      .ok [DVal.int 1, DVal.int 65535, DVal.int 300] :=
  decode_unsigned_left_inverse [1, 65535, 300] (by decide) (by decide)

/-- C4. `decode_modbus_response` with format `"Int"` folds each unsigned
16-bit word `v` to a signed value by subtracting 65536 exactly when
`v ≥ 32768`; in particular `0xFFFF ↦ -1`, `0x8000 ↦ -32768`,
`0x7FFF ↦ 32767` and `0x0000 ↦ 0`. -/
theorem decode_int_sign_fold (v : Nat) (hv : v < 65536) :
    decode_modbus_response (mkResponse [v]) 1 "Int" =
      .ok [DVal.int (if 32768 ≤ v then (v : Int) - 65536 else (v : Int))] ∧
    decode_modbus_response (mkResponse [0xFFFF]) 1 "Int" = .ok [DVal.int (-1)] ∧
    decode_modbus_response (mkResponse [0x8000]) 1 "Int" = .ok [DVal.int (-32768)] ∧
    decode_modbus_response (mkResponse [0x7FFF]) 1 "Int" = .ok [DVal.int 32767] ∧
    decode_modbus_response (mkResponse [0]) 1 "Int" = .ok [DVal.int 0] := by
  refine ⟨?_, by rfl, by rfl, by rfl, by rfl⟩
  have h := decode_mkResponse [v] "Int" (by simp)
  rw [show [v].length = 1 from rfl] at h
  rw [h]
  exact decodeWords_int [] [v] (by simpa using hv)

/-- C4 witness: the sign fold at a concrete raw word. -/
theorem decode_int_sign_fold_witness :
    decode_modbus_response (mkResponse [40000]) 1 "Int" =
      .ok [DVal.int (if 32768 ≤ 40000 then ((40000 : Nat) : Int) - 65536
        else ((40000 : Nat) : Int))] :=
  (decode_int_sign_fold 40000 (by decide)).1

/-- The two bytes of an in-range 16-bit value recombine to the value. -/
theorem pyBytes_recombine {a : Nat} (h : a < 65536) :
    256 * pyHiByte (a : Int) + pyByte (a : Int) = a := by
  unfold pyByte pyHiByte
  omega

/-- C5. On a request built by `create_request` from in-range fields,
`get_registers_from_request` returns the contiguous range
`[registerAddress, registerAddress + registerCount)`; in particular a request
for address 100, count 3 yields `[100, 101, 102]`. -/
theorem get_registers_from_create_request (t p u f a c : Nat)
    (ht : t < 65536) (hp : p < 65536) (hu : u < 256) (hf : f < 256)
    (ha : a < 65536) (hc : c < 65536) :
    get_registers_from_request
      (create_request (t : Int) (p : Int) (u : Int) (f : Int) (a : Int) (c : Int)) =
      .ok ((List.range c).map fun i => a + i) ∧
    get_registers_from_request (create_request 1 0 1 4 100 3) =
      .ok [100, 101, 102] := by
  refine ⟨?_, by rfl⟩
  have hF : create_request (t : Int) (p : Int) (u : Int) (f : Int) (a : Int) (c : Int) =
      bytesToHex [pyHiByte (t : Int), pyByte (t : Int), pyHiByte (p : Int),
        pyByte (p : Int), 0, 10, 255, 4, pyByte (u : Int), pyByte (f : Int),
        pyHiByte (a : Int), pyByte (a : Int), pyHiByte (c : Int), pyByte (c : Int),
        crc16_modbus (message_frame (u : Int) (f : Int) (a : Int) (c : Int)) % 256,
        crc16_modbus (message_frame (u : Int) (f : Int) (a : Int) (c : Int)) / 256 % 256]
      := rfl
  have hdrop : (bytesToHex [pyHiByte (t : Int), pyByte (t : Int), pyHiByte (p : Int),
      pyByte (p : Int), 0, 10, 255, 4, pyByte (u : Int), pyByte (f : Int),
      pyHiByte (a : Int), pyByte (a : Int), pyHiByte (c : Int), pyByte (c : Int),
      crc16_modbus (message_frame (u : Int) (f : Int) (a : Int) (c : Int)) % 256,
      crc16_modbus (message_frame (u : Int) (f : Int) (a : Int) (c : Int)) / 256 % 256]).drop 12
      = bytesToHex [255, 4, pyByte (u : Int), pyByte (f : Int),
        pyHiByte (a : Int), pyByte (a : Int), pyHiByte (c : Int), pyByte (c : Int),
        crc16_modbus (message_frame (u : Int) (f : Int) (a : Int) (c : Int)) % 256,
        crc16_modbus (message_frame (u : Int) (f : Int) (a : Int) (c : Int)) / 256 % 256]
      := by
    rw [show (12 : Nat) = 2 * 6 from rfl, bytesToHex_drop]
    rfl
  have haddr : parseHexNat (pySlice (bytesToHex [255, 4, pyByte (u : Int),
      pyByte (f : Int), pyHiByte (a : Int), pyByte (a : Int), pyHiByte (c : Int),
      pyByte (c : Int),
      crc16_modbus (message_frame (u : Int) (f : Int) (a : Int) (c : Int)) % 256,
      crc16_modbus (message_frame (u : Int) (f : Int) (a : Int) (c : Int)) / 256 % 256])
      8 12) = some a := by
    rw [show (8 : Nat) = 2 * 4 from rfl, show (12 : Nat) = 2 * 6 from rfl,
      pySlice_bytesToHex]
    rw [show (([255, 4, pyByte (u : Int), pyByte (f : Int), pyHiByte (a : Int),
      pyByte (a : Int), pyHiByte (c : Int), pyByte (c : Int),
      crc16_modbus (message_frame (u : Int) (f : Int) (a : Int) (c : Int)) % 256,
      crc16_modbus (message_frame (u : Int) (f : Int) (a : Int) (c : Int)) / 256 % 256].take
        6).drop 4) = [pyHiByte (a : Int), pyByte (a : Int)] from rfl]
    rw [show bytesToHex [pyHiByte (a : Int), pyByte (a : Int)] =
      byteToHex (pyHiByte (a : Int)) ++ byteToHex (pyByte (a : Int))
      by simp [bytesToHex]]
    rw [parseHexNat_two_bytes (pyHiByte_lt _) (pyByte_lt _), pyBytes_recombine ha]
  have hcnt : parseHexNat (pySlice (bytesToHex [255, 4, pyByte (u : Int),
      pyByte (f : Int), pyHiByte (a : Int), pyByte (a : Int), pyHiByte (c : Int),
      pyByte (c : Int),
      crc16_modbus (message_frame (u : Int) (f : Int) (a : Int) (c : Int)) % 256,
      crc16_modbus (message_frame (u : Int) (f : Int) (a : Int) (c : Int)) / 256 % 256])
      12 16) = some c := by
    rw [show (12 : Nat) = 2 * 6 from rfl, show (16 : Nat) = 2 * 8 from rfl,
      pySlice_bytesToHex]
    rw [show (([255, 4, pyByte (u : Int), pyByte (f : Int), pyHiByte (a : Int),
      pyByte (a : Int), pyHiByte (c : Int), pyByte (c : Int),
      crc16_modbus (message_frame (u : Int) (f : Int) (a : Int) (c : Int)) % 256,
      crc16_modbus (message_frame (u : Int) (f : Int) (a : Int) (c : Int)) / 256 % 256].take
        8).drop 6) = [pyHiByte (c : Int), pyByte (c : Int)] from rfl]
    rw [show bytesToHex [pyHiByte (c : Int), pyByte (c : Int)] =
      byteToHex (pyHiByte (c : Int)) ++ byteToHex (pyByte (c : Int))
      by simp [bytesToHex]]
    rw [parseHexNat_two_bytes (pyHiByte_lt _) (pyByte_lt _), pyBytes_recombine hc]
  simp only [get_registers_from_request, hF, hdrop, haddr, hcnt]

/-- C5 witness: the register range of a concrete request. -/
theorem get_registers_from_create_request_witness :
    get_registers_from_request (create_request 1 0 1 4 100 3) =
      .ok [100, 101, 102] :=
  (get_registers_from_create_request 1 0 1 4 100 3 (by decide) (by decide)
    (by decide) (by decide) (by decide) (by decide)).2

/-- C6 counterexample: with `registerCount = 0` the per-register loop never
runs, so an unrecognized format returns the empty value list instead of
failing; and on a response whose length field does not parse, the failure is
a parse error, not the unsupported-format error. -/
theorem decode_unsupported_format_cex :
    decode_modbus_response (mkResponse [5]) 0 "Foo" = .ok [] ∧
    decode_modbus_response [] 1 "Foo" = .error .parseError :=
  ⟨rfl, rfl⟩

/-- C6 (amended). When the header length field and the declared data-byte
count both parse and at least one register is requested, any format other
than `"Int"`, `"UnsignedInt"` and `"Float"` makes `decode_modbus_response`
fail with the unsupported-format error. -/
theorem decode_unsupported_format (response : List Char) (cnt : Nat)
    (fmt : String) (L B : Nat)
    (hL : parseHexNat (pySlice response 8 12) = some L)
    (hB : parseHexNat (pySlice (pySlice response 12 (12 + L * 2)) 8 10) = some B)
    (h1 : fmt ≠ "Int") (h2 : fmt ≠ "UnsignedInt") (h3 : fmt ≠ "Float")
    (hcnt : 1 ≤ cnt) :
    decode_modbus_response response cnt fmt = .error (.unsupportedFormat fmt) := by
  obtain ⟨k, rfl⟩ : ∃ k, cnt = k + 1 := ⟨cnt - 1, by omega⟩
  simp only [decode_modbus_response, hL, hB, decodeWords,
    if_neg h1, if_neg h2, if_neg h3]

/-- C6 witness: the amended statement at a concrete well-formed response. -/
theorem decode_unsupported_format_witness :
    decode_modbus_response (mkResponse [5]) 1 "Foo" =
      .error (.unsupportedFormat "Foo") :=
  decode_unsupported_format (mkResponse [5]) 1 "Foo" 7 2 rfl rfl
    (by decide) (by decide) (by decide) (by decide)

/-- `bytes.fromhex` produces one byte per two hex characters. -/
theorem fromHexBytes_length : ∀ (s : List Char) (bs : List Nat),
    fromHexBytes s = some bs → s.length = 2 * bs.length
  | [], bs => by
    intro h
    simp only [fromHexBytes, Option.some.injEq] at h
    subst h
    rfl
  | [_], bs => by
    intro h
    simp only [fromHexBytes] at h
    exact Option.noConfusion h
  | c1 :: c2 :: rest, bs => by
    intro h
    simp only [fromHexBytes] at h
    cases hv1 : hexVal c1 with
    | none => rw [hv1] at h; cases h
    | some a =>
      cases hv2 : hexVal c2 with
      | none => rw [hv1, hv2] at h; cases h
      | some b =>
        cases hfb : fromHexBytes rest with
        | none => rw [hv1, hv2, hfb] at h; cases h
        | some bs' =>
          rw [hv1, hv2, hfb] at h
          simp only [Option.some.injEq] at h
          subst h
          have := fromHexBytes_length rest bs' hfb
          simp only [List.length_cons, this]
          omega

/-- Every slice handed to the `"Float"` unpack has at most four hex
characters, hence at most two bytes — never the four the unpack needs. -/
theorem decodeWords_float_fails (data : List Char) (k i : Nat) :
    ∃ e, decodeWords data "Float" (k + 1) i = .error e := by
  have hred : decodeWords data "Float" (k + 1) i =
      match fromHexBytes (pySlice data (i * 4) ((i + 1) * 4)) with
      | none => Except.error DecodeError.parseError
      | some bs =>
        if bs.length = 4 then
          match decodeWords data "Float" k (i + 1) with
          | Except.ok rest => Except.ok (DVal.float bs :: rest)
          | Except.error e => Except.error e
        else Except.error DecodeError.unpackError := rfl
  rw [hred]
  cases hfb : fromHexBytes (pySlice data (i * 4) ((i + 1) * 4)) with
  | none => exact ⟨.parseError, rfl⟩
  | some bs =>
    have hslice : (pySlice data (i * 4) ((i + 1) * 4)).length ≤ 4 := by
      unfold pySlice
      simp only [List.length_drop, List.length_take]
      omega
    have hlen := fromHexBytes_length _ bs hfb
    have hne : bs.length ≠ 4 := by omega
    exact ⟨.unpackError, by simp only [if_neg hne]⟩

/-- C9. With format `"Float"` and at least one requested register,
`decode_modbus_response` never returns values on any response string of hex
digits: either a header field fails to parse, or the first iteration hands
the four-byte IEEE-754 unpack at most two bytes, so an error is always
raised. -/
theorem decode_float_never_returns (response : List Char) (cnt : Nat)
    (hhex : ∀ ch ∈ response, (hexVal ch).isSome = true) (hcnt : 1 ≤ cnt) :
    ∃ e, decode_modbus_response response cnt "Float" = .error e := by
  obtain ⟨k, rfl⟩ : ∃ k, cnt = k + 1 := ⟨cnt - 1, by omega⟩
  cases hp1 : parseHexNat (pySlice response 8 12) with
  | none => exact ⟨.parseError, by simp only [decode_modbus_response, hp1]⟩
  | some L =>
    cases hp2 : parseHexNat (pySlice (pySlice response 12 (12 + L * 2)) 8 10) with
    | none => exact ⟨.parseError, by simp only [decode_modbus_response, hp1, hp2]⟩
    | some B =>
      obtain ⟨e, he⟩ := decodeWords_float_fails
        (pySlice (pySlice response 12 (12 + L * 2)) 10 (10 + B * 2)) k 0
      exact ⟨e, by simp only [decode_modbus_response, hp1, hp2]; exact he⟩

/-- C9 witness: the float path fails on a concrete well-formed response. -/
theorem decode_float_never_returns_witness :
    ∃ e, decode_modbus_response (mkResponse [5]) 1 "Float" = .error e :=
  decode_float_never_returns (mkResponse [5]) 1 (by decide) (by decide)

/-- The read loop of `ModbusClient.send` (`modbusclient.py` lines 72-76):
while the accumulated response is shorter than expected another `recv` is
made, and a zero-length read breaks the loop.  The environment is the
sequence of chunks successive `recv` calls yield; an exhausted sequence
models a closed peer, whose `recv` returns the empty byte string. -/
def readLoop (expected : Nat) : List Nat → List (List Nat) → List Nat
  | response, [] => response
  | response, chunk :: rest =>
    if response.length < expected then
      if chunk = [] then response
      else readLoop expected (response ++ chunk) rest
    else response

/-- The exchange inside `ModbusClient.send` (`modbusclient.py` lines 62-80),
as a function of the chunk sequence the connection delivers: the initial
`recv`, the expected-length computation `int.from_bytes(response[4:6],
'big') + 6` when at least six bytes arrived, the read loop, and the
accumulated response.  (Writing the request has no modelled observable.) -/
def exchange (chunks : List (List Nat)) : List Nat :=
  let response := chunks.headD []
  if 6 ≤ response.length then
    readLoop (256 * response.getD 4 0 + response.getD 5 0 + 6) response chunks.tail
  else response

/-- Written from the spec (§4.4): keep appending chunks until the
accumulated byte count reaches the expected length or a zero-length read
occurs, whichever comes first, and return whatever was accumulated. -/
def specAccum (expectedLength : Nat) : List Nat → List (List Nat) → List Nat
  | acc, [] => acc
  | acc, chunk :: rest =>
    if expectedLength ≤ acc.length ∨ chunk = [] then acc
    else specAccum expectedLength (acc ++ chunk) rest

/-- Written from the spec (§4.4 and the claim): read an initial chunk; if it
has at least six bytes, compute `expectedLength = bigEndian16(bytes[4:6]) +
6` and accumulate further chunks per `specAccum`; an initial chunk of fewer
than six bytes is returned as the whole response. -/
def exchangeSpec (chunks : List (List Nat)) : List Nat :=
  let initial := chunks.headD []
  if initial.length < 6 then initial
  else specAccum (256 * initial.getD 4 0 + initial.getD 5 0 + 6) initial chunks.tail

theorem readLoop_eq_specAccum (expected : Nat) (chunks : List (List Nat)) :
    ∀ acc : List Nat, readLoop expected acc chunks = specAccum expected acc chunks := by
  induction chunks with
  | nil => intro acc; rfl
  | cons c rest ih =>
    intro acc
    simp only [readLoop, specAccum]
    by_cases h1 : acc.length < expected
    · by_cases h2 : c = []
      · rw [if_pos h1, if_pos h2, if_pos (Or.inr h2)]
      · rw [if_pos h1, if_neg h2, if_neg (by push_neg; exact ⟨by omega, h2⟩)]
        exact ih (acc ++ c)
    · rw [if_neg h1, if_pos (Or.inl (by omega))]

/-- C8. The exchange of `ModbusClient.send` behaves exactly as the spec
describes: with at least six initial bytes it appends chunks until the
accumulated length reaches `bigEndian16(bytes[4:6]) + 6` or a zero-length
read occurs, returning the (possibly shorter) accumulation; a shorter
initial chunk is returned as the whole response. -/
theorem exchange_matches_spec (chunks : List (List Nat)) :
    exchange chunks = exchangeSpec chunks := by
  simp only [exchange, exchangeSpec]
  by_cases h : 6 ≤ (chunks.headD []).length
  · rw [if_pos h, if_neg (by omega)]
    exact readLoop_eq_specAccum _ _ _
  · rw [if_neg h, if_pos (by omega)]

/-- C8 witness: the refinement at a concrete chunk sequence. -/
theorem exchange_matches_spec_witness :
    exchange [[0, 0, 0, 0, 0, 3], [9, 9], [8], [7]] =
      exchangeSpec [[0, 0, 0, 0, 0, 3], [9, 9], [8], [7]] :=
  exchange_matches_spec [[0, 0, 0, 0, 0, 3], [9, 9], [8], [7]]

/-- One attempt of the retry loop of `ModbusClient.send` (`modbusclient.py`
lines 40-89), seen from outside: discovery returns false (line 43), binding,
listening or accepting raises (lines 55-59, caught at lines 82-89), the
exchange raises (also caught), or the exchange completes and the connection
delivers the given chunk sequence. -/
inductive Attempt where
  | discFail
  | acceptFail
  | exchFail
  | exchOk (chunks : List (List Nat))
  deriving DecidableEq

/-- Whether an attempt fails: anything but a completed exchange. -/
def isFail : Attempt → Bool
  | .exchOk _ => false
  | _ => true

/-- The retry loop of `ModbusClient.send`: `env i` is the outcome of attempt
`i` and `fuel` the remaining iterations of `range(retry_count)`.  The result
pairs the returned hex string (empty on exhaustion, line 92) with the number
of attempts started — every started attempt first sends one discovery
datagram.  A completed exchange returns its hex-encoded response at once
(line 80). -/
def sendLoop (env : Nat → Attempt) : Nat → Nat → List Char × Nat
  | _, 0 => ([], 0)
  | i, Nat.succ fuel =>
    match env i with
    | .exchOk chunks => (bytesToHex (exchange chunks), 1)
    | _ =>
      let r := sendLoop env (i + 1) fuel
      (r.1, r.2 + 1)

/-- `ModbusClient.send` (`modbusclient.py` lines 35-92): attempts indexed
from 0; Python's `range` of a non-positive count is empty.  (The request
bytes influence no modelled observable; decoding happens elsewhere.) -/
def send (env : Nat → Attempt) (retry_count : Int) : List Char × Nat :=
  sendLoop env 0 retry_count.toNat

theorem sendLoop_first_success (env : Nat → Attempt) :
    ∀ (fuel start i : Nat) (chunks : List (List Nat)), i < fuel →
    (∀ j, j < i → isFail (env (start + j)) = true) →
    env (start + i) = .exchOk chunks →
    sendLoop env start fuel = (bytesToHex (exchange chunks), i + 1) := by
  intro fuel
  induction fuel with
  | zero => intro start i chunks hi; omega
  | succ f ih =>
    intro start i chunks hi hfail hok
    cases i with
    | zero =>
      rw [Nat.add_zero] at hok
      simp only [sendLoop, hok]
    | succ k =>
      have h0 : isFail (env start) = true := by
        have := hfail 0 (by omega)
        rwa [Nat.add_zero] at this
      have hrec : sendLoop env (start + 1) f =
          (bytesToHex (exchange chunks), k + 1) := by
        refine ih (start + 1) k chunks (by omega) ?_ ?_
        · intro j hj
          have := hfail (j + 1) (by omega)
          rwa [show start + (j + 1) = start + 1 + j by omega] at this
        · rwa [show start + (k + 1) = start + 1 + k by omega] at hok
      cases henv : env start with
      | exchOk c => rw [henv] at h0; simp [isFail] at h0
      | discFail => simp only [sendLoop, henv, hrec]
      | acceptFail => simp only [sendLoop, henv, hrec]
      | exchFail => simp only [sendLoop, henv, hrec]

theorem sendLoop_all_fail (env : Nat → Attempt) :
    ∀ (fuel start : Nat),
    (∀ j, j < fuel → isFail (env (start + j)) = true) →
    sendLoop env start fuel = ([], fuel) := by
  intro fuel
  induction fuel with
  | zero => intro start _; rfl
  | succ f ih =>
    intro start hfail
    have h0 : isFail (env start) = true := by
      have := hfail 0 (by omega)
      rwa [Nat.add_zero] at this
    have hrec : sendLoop env (start + 1) f = ([], f) := by
      refine ih (start + 1) ?_
      intro j hj
      have := hfail (j + 1) (by omega)
      rwa [show start + (j + 1) = start + 1 + j by omega] at this
    cases henv : env start with
    | exchOk c => rw [henv] at h0; simp [isFail] at h0
    | discFail => simp only [sendLoop, henv, hrec]
    | acceptFail => simp only [sendLoop, henv, hrec]
    | exchFail => simp only [sendLoop, henv, hrec]

/-- C2 counterexample: a first attempt whose exchange completes but delivers
zero response bytes makes `send` return the empty string even though no
attempt failed — emptiness does not characterize total failure. -/
theorem send_empty_on_success_cex :
    send (fun _ => Attempt.exchOk [[]]) 1 = ([], 1) ∧
    isFail ((fun _ => Attempt.exchOk [[]]) 0) = false :=
  ⟨rfl, rfl⟩

/-- C2 (amended). `send` returns the hex encoding of the first completed
exchange immediately, starting no further attempt, and it returns the
empty string whenever every one of the `retry_count` attempts fails at
discovery, accept or exchange; the empty string, however, is also returned
when the first completed exchange itself delivered zero bytes, so emptiness
does not imply that every attempt failed. -/
theorem send_first_success (env : Nat → Attempt) (n i : Nat)
    (chunks : List (List Nat)) (hi : i < n)
    (hfail : ∀ j, j < i → isFail (env j) = true)
    (hok : env i = .exchOk chunks) :
    send env (n : Int) = (bytesToHex (exchange chunks), i + 1) ∧
    (∀ m : Nat, (∀ j, j < m → isFail (env j) = true) →
      send env (m : Int) = ([], m)) := by
  constructor
  · unfold send
    rw [show ((n : Int)).toNat = n by omega]
    refine sendLoop_first_success env n 0 i chunks hi ?_ ?_
    · intro j hj
      simpa using hfail j hj
    · simpa using hok
  · intro m hm
    unfold send
    rw [show ((m : Int)).toNat = m by omega]
    refine sendLoop_all_fail env m 0 ?_
    intro j hj
    simpa using hm j hj

/-- A sample environment: attempt 0 fails at discovery, attempt 1 completes
with a short response, later attempts fail. -/
def envExample : Nat → Attempt :=
  fun i => if i = 1 then .exchOk [[1, 2, 3]] else .discFail

/-- C2 witness: the first completed exchange's response is returned after
two started attempts. -/
theorem send_first_success_witness :
    send envExample 3 = (bytesToHex (exchange [[1, 2, 3]]), 2) :=
  (send_first_success envExample 3 1 [[1, 2, 3]] (by decide)
    (by decide) (by rfl)).1

/-- C10. A non-positive retry count makes `send` return the empty string at
once with zero attempts started: no discovery datagram is sent, no socket is
bound and no exchange occurs, exactly as after exhausting a positive retry
count. -/
theorem send_nonpositive_retry (env : Nat → Attempt) (retry_count : Int)
    (h : retry_count ≤ 0) :
    send env retry_count = ([], 0) := by
  unfold send
  rw [show retry_count.toNat = 0 by omega]
  rfl

/-- C10 witness: a negative retry count at a concrete environment. -/
theorem send_nonpositive_retry_witness :
    send envExample (-2) = ([], 0) :=
  send_nonpositive_retry envExample (-2) (by decide)
